import Mathlib

/-!
Verification development for the hierarchical document-structure extractor
(`pdf_parser_generalised.py`, `pdf_parser_generalised1.py`, `pdf_to_table4.py`).

Shallow embedding conventions:
* Python `int` coordinates and font sizes become `Int`; character counts become `Nat`.
* Python `dict` (insertion ordered) becomes an association list; `dict.get`/`[]`
  become `List.lookup`; assignment becomes an in-place-update-or-append function.
* The real-valued heuristics of `calculate_dynamic_y_tolerance` (`0.1`, `0.3`,
  `0.5` multipliers, `statistics.mean`/`stdev`) are modelled in exact rational
  arithmetic (`Rat`).  Every comparison the theorems below evaluate is at points
  where IEEE-754 double arithmetic and exact rational arithmetic agree.
* `statistics.mode` is modelled with the semantics of Python >= 3.8: the most
  frequent value, ties broken to the value whose first occurrence is earliest.
  Under those semantics `mode` never raises on non-empty data, so the
  `except: dom = statistics.median(heights)` branch of the source is
  unreachable and is not modelled.
* Mutating methods become functions returning the updated value; the per-page
  closure state of `parse_page_to_data_rows` becomes an explicit state record
  threaded through a fold over the lines.
-/

set_option maxRecDepth 40000

namespace PdfStruct

/-- Model of `FontSpec` from the source: `size; family; color`. -/
structure FontSpec where
  size : Int
  family : String
  color : String
deriving DecidableEq

/-- Model of `TextFragment`: the stored fields `right`/`bottom` are the derived values
`left + width` / `top + height` computed by `from_node`, so they are modelled
as functions below rather than duplicated fields. -/
structure TextFragment where
  text : String
  top : Int
  left : Int
  width : Int
  height : Int
  font_id : String
deriving DecidableEq

def TextFragment.right (f : TextFragment) : Int := f.left + f.width

def TextFragment.bottom (f : TextFragment) : Int := f.top + f.height

/-- Model of `TextLine`: `top`/`bottom`/`left` are the incrementally maintained fields of
the Python class (`top` and `left` come from the first fragment and are never
updated; `bottom` is the running maximum of fragment bottoms). -/
structure TextLine where
  fragments : List TextFragment
  top : Int
  bottom : Int
  left : Int
deriving DecidableEq

/-- Model of `TextLine.__init__(first_fragment)`. -/
def TextLine.mk1 (f : TextFragment) : TextLine :=
  ⟨[f], f.top, f.bottom, f.left⟩

/-- Model of `TextLine.add(fragment)`. -/
def TextLine.add (l : TextLine) (f : TextFragment) : TextLine :=
  { l with
    fragments := l.fragments ++ [f]
    bottom := if f.bottom > l.bottom then f.bottom else l.bottom }

/-- Model of `line.fragments[0].font_id` as read by the page processors.  The processors
only ever apply this to lines built by `extract_text_lines`, which are
non-empty; the `[]` case is unreachable there. -/
def TextLine.headFont (l : TextLine) : String :=
  match l.fragments with
  | [] => ""
  | f :: _ => f.font_id

/-- Stable insertion (after existing elements with key `<=`) used to model the
stable in-place `self.fragments.sort(key=lambda f: f.left)`. -/
def insertByLeft (f : TextFragment) : List TextFragment → List TextFragment
  | [] => [f]
  | g :: gs => if g.left ≤ f.left then g :: insertByLeft f gs else f :: g :: gs

def sortByLeftAux : List TextFragment → List TextFragment → List TextFragment
  | acc, [] => acc
  | acc, f :: fs => sortByLeftAux (insertByLeft f acc) fs

/-- Stable sort by `left`, modelling Python's stable `list.sort(key=...)`. -/
def sortByLeft (l : List TextFragment) : List TextFragment :=
  sortByLeftAux [] l

/-- The joining loop of `get_text_content`: one space is inserted whenever the
horizontal gap between consecutive fragments exceeds `space_threshold = 3`. -/
def joinRun : TextFragment → List TextFragment → String
  | _, [] => ""
  | prev, c :: rest =>
      (if c.left - prev.right > 3 then " " else "") ++ c.text ++ joinRun c rest

/-- Model of `TextLine.get_text_content` with the default `space_threshold = 3`. -/
def TextLine.get_text_content (l : TextLine) : String :=
  match sortByLeft l.fragments with
  | [] => ""
  | f :: fs => f.text ++ joinRun f fs

/-! ## HeaderContext (pdf_parser_generalised.py, generalized dict version) -/

/-- The `headers` dict `{level: text}`, as an insertion-ordered association
list, exactly like a Python `dict` with `int` keys. -/
def Headers := List (Nat × String)
deriving DecidableEq

/-- Python dict assignment `d[k] = v`: overwrite in place if the key is
present, otherwise append. -/
def setKey : Headers → Nat → String → Headers
  | [], k, v => [(k, v)]
  | (k0, v0) :: rest, k, v =>
      if k0 = k then (k0, v) :: rest else (k0, v0) :: setKey rest k v

/-- The deletion loop of `update_header`: delete every key deeper than
`level`. -/
def delDeeper (level : Nat) (hs : Headers) : Headers :=
  hs.filter (fun kv => !(kv.1 > level))

structure HeaderContext where
  filename : String
  page_num : Nat
  headers : Headers
deriving DecidableEq

def HeaderContext.update_page_num (c : HeaderContext) (n : Nat) : HeaderContext :=
  { c with page_num := n }

/-- Model of `update_header`: `self.headers[level] = text`, then delete every existing
level strictly deeper than `level`. -/
def HeaderContext.update_header (c : HeaderContext) (level : Nat) (text : String) :
    HeaderContext :=
  { c with headers := delDeeper level (setKey c.headers level text) }

/-- An emitted row: `to_dict` writes `Filename`, `PageNo`, `Text` and injects a
snapshot of the active headers. -/
structure OutputRow where
  filename : String
  pageNo : Nat
  headers : Headers
  text : String
deriving DecidableEq

def HeaderContext.to_dict (c : HeaderContext) (body_text : String) : OutputRow :=
  ⟨c.filename, c.page_num, c.headers, body_text⟩

/-! ## Roles and the document-wide classifier (`generate_global_role_map`) -/

/-- The role union of the source: the string `'body'` or a header level
(a positive `int`). -/
inductive Role where
  | body : Role
  | header : Nat → Role
deriving DecidableEq

/-- Model of `role_map.get(fid, 'body')`. -/
def roleOf (rm : List (String × Role)) (fid : String) : Role :=
  (List.lookup fid rm).getD Role.body

/-- The whitespace characters removed by Python's default `str.strip()`
(ASCII part; Python also strips other Unicode whitespace, which no theorem
below exercises). -/
def isPySpace (c : Char) : Bool :=
  (c == ' ') || (c == '\t') || (c == '\n') || (c == '\r') ||
  (c == '\x0b') || (c == '\x0c')

/-- Model of `len(text.strip())` for a text node. -/
def stripLen (s : String) : Nat :=
  ((s.data.dropWhile isPySpace).reverse.dropWhile isPySpace).length

/-- Python dict accumulation `d[k] = d.get(k, 0) + n` on an insertion-ordered
association list. -/
def bumpCount : List (String × Nat) → String → Nat → List (String × Nat)
  | [], k, n => [(k, n)]
  | (k0, c) :: rest, k, n =>
      if k0 = k then (k0, c + n) :: rest else (k0, c) :: bumpCount rest k n

/-- The tally loop of `generate_global_role_map`: per font id (the dict key is
`fid`, not the font size), restricted to ids present in `font_map` and to
fragments with non-empty stripped text.  `nodes` is the document-order list of
`<text>` nodes as `(font id, raw text)` pairs. -/
def fontCounts (fm : List (String × FontSpec)) (nodes : List (String × String)) :
    List (String × Nat) :=
  nodes.foldl
    (fun acc kv =>
      if (List.lookup kv.1 fm).isSome ∧ 0 < stripLen kv.2
      then bumpCount acc kv.1 (stripLen kv.2)
      else acc)
    []

/-- Python `max(d, key=d.get)`: first key attaining the maximal value (later
keys replace the running best only on a strictly greater value). -/
def pyMaxSnd : (String × Nat) → List (String × Nat) → (String × Nat)
  | best, [] => best
  | best, kv :: rest => pyMaxSnd (if kv.2 > best.2 then kv else best) rest

/-- Model of `font_map[fid].size` (the processors also use `.get`-style defaults, see
`fsOr`; inside the classifier the id is always present). -/
def fontSizeOf (fm : List (String × FontSpec)) (fid : String) : Int :=
  ((List.lookup fid fm).map FontSpec.size).getD 0

/-- First-occurrence deduplication (the key set of a Python `Counter`, in
insertion order; also the element set underlying `set()` before sorting). -/
def dedupAcc : List Int → List Int → List Int
  | acc, [] => acc
  | acc, x :: xs => dedupAcc (if x ∈ acc then acc else acc ++ [x]) xs

def uniqFirst (l : List Int) : List Int := dedupAcc [] l

/-- Insertion step of a descending sort. -/
def insertDesc (x : Int) : List Int → List Int
  | [] => [x]
  | y :: ys => if x ≥ y then x :: y :: ys else y :: insertDesc x ys

/-- Model of `sorted(..., reverse=True)`. -/
def sortDesc : List Int → List Int
  | [] => []
  | x :: xs => insertDesc x (sortDesc xs)

/-- Model of `sorted(list(candidates), reverse=True)` where `candidates` is the set of
sizes of counted fonts strictly greater than the body size. -/
def candidateSizes (fm : List (String × FontSpec)) (counts : List (String × Nat))
    (bodySize : Int) : List Int :=
  sortDesc (uniqFirst ((counts.map (fun kv => fontSizeOf fm kv.1)).filter
    (fun s => bodySize < s)))

/-- Model of `font_map[body_fid].size` where `body_fid = max(font_counts, key=font_counts.get)`;
`0` when no font was counted (the source returns an empty map then). -/
def bodySizeOf (fm : List (String × FontSpec)) (nodes : List (String × String)) : Int :=
  match fontCounts fm nodes with
  | [] => 0
  | c :: cs => fontSizeOf fm (pyMaxSnd c cs).1

def candsOf (fm : List (String × FontSpec)) (nodes : List (String × String)) : List Int :=
  candidateSizes fm (fontCounts fm nodes) (bodySizeOf fm nodes)

/-- Position of a size in the candidate list (`size_to_level` membership /
level lookup: level = index + 1). -/
def idxOfSize (s : Int) : List Int → Option Nat
  | [] => none
  | t :: rest => if t = s then some 0 else (idxOfSize s rest).map (· + 1)

/-- The per-font assignment loop: `size_to_level[f_size]` when the size is a
candidate, else `'body'`. -/
def assignRole (fm : List (String × FontSpec)) (cands : List Int) (fid : String) : Role :=
  match idxOfSize (fontSizeOf fm fid) cands with
  | some i => Role.header (i + 1)
  | none => Role.body

/-- Model of `generate_global_role_map`: role per counted font id.  (When nothing was
counted the source returns `{}`; here the map over the empty count list.) -/
def generate_global_role_map (fm : List (String × FontSpec))
    (nodes : List (String × String)) : List (String × Role) :=
  (fontCounts fm nodes).map (fun kv => (kv.1, assignRole fm (candsOf fm nodes) kv.1))

/-! ## ToleranceEstimator (`calculate_dynamic_y_tolerance`) -/

/-- Model of `statistics.mode` with Python >= 3.8 semantics: the most common value,
ties broken to the value first encountered.  `0` on the empty list (the source
never reaches that case: the fragment list is checked first). -/
def argmaxCount (l : List Int) : Int → List Int → Int
  | best, [] => best
  | best, x :: xs => argmaxCount l (if l.count x > l.count best then x else best) xs

def pyMode (l : List Int) : Int :=
  match uniqFirst l with
  | [] => 0
  | u :: us => argmaxCount l u us

/-- Exact (unnormalized) fraction `num / den`, `den > 0`, used to model the
float arithmetic of the estimator in exact rational arithmetic.  All
operations below keep the denominator positive. -/
structure Frac where
  num : Int
  den : Nat
deriving DecidableEq

def intF (x : Int) : Frac := ⟨x, 1⟩

def fadd (a b : Frac) : Frac := ⟨a.num * (b.den : Int) + b.num * (a.den : Int), a.den * b.den⟩

def fsub (a b : Frac) : Frac := ⟨a.num * (b.den : Int) - b.num * (a.den : Int), a.den * b.den⟩

def fsq (a : Frac) : Frac := ⟨a.num * a.num, a.den * a.den⟩

def fmulInt (k : Int) (a : Frac) : Frac := ⟨k * a.num, a.den⟩

def fdivNat (a : Frac) (n : Nat) : Frac := ⟨a.num, a.den * n⟩

def fsum (l : List Frac) : Frac := l.foldr fadd (intF 0)

/-- Python `int(q)` on an exact rational: truncation toward zero. -/
def ftrunc (a : Frac) : Int :=
  if a.num < 0 then -((a.num.natAbs / a.den : Nat) : Int)
  else ((a.num.natAbs / a.den : Nat) : Int)

/-- Largest `k <= fuel` with `k * k <= n` (structural integer square root). -/
def natSqrtAux (n : Nat) : Nat → Nat
  | 0 => 0
  | k + 1 => if (k + 1) * (k + 1) ≤ n then k + 1 else natSqrtAux n k

def natSqrt (n : Nat) : Nat := natSqrtAux n n

/-- Exact model of `math.sqrt` on the rationals this development evaluates it
at (perfect squares, in particular `0`): `sqrt(n/d) = sqrt(n)/sqrt(d)`. -/
def fsqrt (a : Frac) : Frac := ⟨(natSqrt a.num.toNat : Int), natSqrt a.den⟩

/-- Model of `statistics.mean`. -/
def fmean (l : List Frac) : Frac := fdivNat (fsum l) l.length

/-- Model of `statistics.stdev` (sample standard deviation); only ever called on lists
of length at least 2 and, in the theorems below, evaluated only where the
variance is a perfect square (in fact `0`), where `fsqrt` agrees with the
IEEE-754 square root. -/
def pyStdev (l : List Frac) : Frac :=
  fsqrt (fdivNat (fsum (l.map (fun x => fsq (fsub x (fmean l))))) (l.length - 1))

/-- Stable insertion by `top` (after existing elements with `top <=`). -/
def insertByTop (f : TextFragment) : List TextFragment → List TextFragment
  | [] => [f]
  | g :: gs => if g.top ≤ f.top then g :: insertByTop f gs else f :: g :: gs

def sortByTopAux : List TextFragment → List TextFragment → List TextFragment
  | acc, [] => acc
  | acc, f :: fs => sortByTopAux (insertByTop f acc) fs

/-- Model of `sorted(fragments, key=lambda f: f.top)` (stable). -/
def sortByTop (l : List TextFragment) : List TextFragment :=
  sortByTopAux [] l

/-- Consecutive `top` differences `frags[i].top - frags[i-1].top`. -/
def consecGaps : List TextFragment → List Int
  | [] => []
  | [_] => []
  | a :: b :: rest => (b.top - a.top) :: consecGaps (b :: rest)

/-- Model of `calculate_dynamic_y_tolerance`.  The float heuristics are modelled in
exact rational arithmetic: `g < dom * 0.5` as `2 * g < dom`, `dom * 0.1` as
`dom / 10`, `dom * 0.3` as `3 * dom / 10`. -/
def calculate_dynamic_y_tolerance (fragments : List TextFragment) : Int :=
  if fragments = [] then 3
  else
    let heights := fragments.map TextFragment.height
    if heights = [] then 3
    else
      let dom : Int := pyMode heights
      let jitter := (consecGaps (sortByTop fragments)).filter
        (fun g => 0 ≤ g ∧ 2 * g < dom)
      if jitter = [] then max 2 (ftrunc ⟨dom, 10⟩)
      else
        let jq := jitter.map intF
        let sd := if 1 < jitter.length then pyStdev jq else intF 0
        let calcv := ftrunc (fadd (fmean jq) (fmulInt 2 sd))
        max 2 (min calcv (ftrunc ⟨3 * dom, 10⟩))

/-! ## LineReconstructor (`extract_text_lines`) -/

/-- Stable insertion by the lexicographic key `(top, left)`. -/
def insertByTopLeft (f : TextFragment) : List TextFragment → List TextFragment
  | [] => [f]
  | g :: gs =>
      if g.top < f.top ∨ (g.top = f.top ∧ g.left ≤ f.left)
      then g :: insertByTopLeft f gs
      else f :: g :: gs

def sortByTopLeftAux : List TextFragment → List TextFragment → List TextFragment
  | acc, [] => acc
  | acc, f :: fs => sortByTopLeftAux (insertByTopLeft f acc) fs

/-- Model of `frags.sort(key=lambda f: (f.top, f.left))` (stable). -/
def sortByTopLeft (l : List TextFragment) : List TextFragment :=
  sortByTopLeftAux [] l

/-- The sweep of `extract_text_lines`: append to the current line when
`abs(frag.top - lines[-1].top) <= y_tol`, else start a new line.  (`lines[-1].top`
is the top of the current line's first fragment: `add` never changes `top`.) -/
def sweepAux (tol : Int) : TextLine → List TextFragment → List TextLine
  | cur, [] => [cur]
  | cur, f :: fs =>
      if |f.top - cur.top| ≤ tol then sweepAux tol (cur.add f) fs
      else cur :: sweepAux tol (TextLine.mk1 f) fs

/-- Model of `extract_text_lines`: filter empty-text fragments, compute the tolerance on
the filtered (unsorted) list, sort by `(top, left)`, sweep. -/
def extract_text_lines (frags : List TextFragment) : List TextLine :=
  let fs := frags.filter (fun f => f.text ≠ "")
  match sortByTopLeft fs with
  | [] => []
  | g :: gs => sweepAux (calculate_dynamic_y_tolerance fs) (TextLine.mk1 g) gs

/-! ## PageStructureBuilder (`parse_page_to_data_rows`, pdf_parser_generalised.py)

The closure-mutated locals (`body_buffer`, `header_buffer`,
`active_header_role`, `rows`) and the shared `context` become an explicit
state record threaded through the line loop. -/

structure PState where
  ctx : HeaderContext
  bodyBuf : List String
  headBuf : List String
  activeRole : Option Nat
  rows : List OutputRow
deriving DecidableEq

/-- Model of `" ".join(buffer)`. -/
def joinSp (l : List String) : String := String.intercalate " " l

/-- Model of `commit_body`: if the body buffer is non-empty, emit a row snapshotting the
context, then clear the buffer. -/
def commitBody (st : PState) : PState :=
  if st.bodyBuf = [] then st
  else ⟨st.ctx, [], st.headBuf, st.activeRole,
        st.rows ++ [st.ctx.to_dict (joinSp st.bodyBuf)]⟩

/-- Model of `commit_header`: if a header is active and the header buffer is non-empty,
write the joined text into the context and clear the buffer. -/
def commitHeader (st : PState) : PState :=
  match st.activeRole with
  | none => st
  | some r =>
      if st.headBuf = [] then st
      else ⟨st.ctx.update_header r (joinSp st.headBuf), st.bodyBuf, [],
            st.activeRole, st.rows⟩

/-- Model of `font_map[fid].size if fid in font_map else d`. -/
def fsOr (fm : List (String × FontSpec)) (fid : String) (d : Int) : Int :=
  match List.lookup fid fm with
  | some s => s.size
  | none => d

/-- Steps 1-2 of the new-header path: commit the previous header (if any),
then commit any pending body text. -/
def hdrCommits (st : PState) : PState :=
  commitBody (if st.activeRole.isSome then commitHeader st else st)

/-- Start tracking a new header: set the active level and append this line's
text to the header buffer. -/
def setHeaderStart (st : PState) (r : Nat) (text : String) : PState :=
  ⟨st.ctx, st.bodyBuf, st.headBuf ++ [text], some r, st.rows⟩

/-- The body branch's `commit_header(); active_header_role = None`. -/
def clearActive (st : PState) : PState :=
  ⟨st.ctx, st.bodyBuf, st.headBuf, none, st.rows⟩

/-- Model of `lines[i-1].bottom` (unused at `i = 0`, where the source does not read it;
the variant parser uses `0` there). -/
def prevBottom (prev : Option TextLine) : Int :=
  match prev with
  | some p => p.bottom
  | none => 0

/-- Paragraph detection of the body branch: `if i > 0 and body_buffer:` commit
the body when `gap > fs * 0.6` (modelled exactly as `5 * gap > 3 * fs`). -/
def bodyGapCommit (fm : List (String × FontSpec)) (prev : Option TextLine)
    (st1 : PState) (line : TextLine) : PState :=
  match prev with
  | some p =>
      if st1.bodyBuf ≠ [] ∧
         5 * (line.top - p.bottom) > 3 * fsOr fm line.headFont 12
      then commitBody st1 else st1
  | none => st1

/-- Append the line's text to the body buffer. -/
def appendBody (st : PState) (text : String) : PState :=
  ⟨st.ctx, st.bodyBuf ++ [text], st.headBuf, st.activeRole, st.rows⟩

/-- One iteration of the line loop of `parse_page_to_data_rows`
(pdf_parser_generalised.py).  `prev` is `lines[i-1]` (`none` at `i = 0`). -/
def processLine (fm : List (String × FontSpec)) (rm : List (String × Role))
    (prev : Option TextLine) (st : PState) (line : TextLine) : PState :=
  match roleOf rm line.headFont with
  | Role.header r =>
      if st.activeRole = some r then
        ⟨st.ctx, st.bodyBuf, st.headBuf ++ [line.get_text_content],
         st.activeRole, st.rows⟩
      else
        setHeaderStart (hdrCommits st) r line.get_text_content
  | Role.body =>
      appendBody
        (bodyGapCommit fm prev
          (if st.activeRole.isSome then clearActive (commitHeader st) else st)
          line)
        line.get_text_content

def runLines (fm : List (String × FontSpec)) (rm : List (String × Role)) :
    Option TextLine → PState → List TextLine → PState
  | _, st, [] => st
  | prev, st, l :: ls => runLines fm rm (some l) (processLine fm rm prev st l) ls

def initState (ctx : HeaderContext) : PState := ⟨ctx, [], [], none, []⟩

/-- End-of-page cleanup: commit a still-active header, then any pending body. -/
def endOfPage (st : PState) : PState :=
  commitBody (if st.activeRole.isSome then commitHeader st else st)

/-- Model of `parse_page_to_data_rows` (pdf_parser_generalised.py): returns the emitted
rows together with the updated shared context. -/
def parse_page_to_data_rows (fm : List (String × FontSpec))
    (rm : List (String × Role)) (lines : List TextLine) (ctx : HeaderContext) :
    List OutputRow × HeaderContext :=
  let st := endOfPage (runLines fm rm none (initState ctx) lines)
  (st.rows, st.ctx)

/-! ## DocumentOrchestrator (`main`, pdf_parser_generalised.py)

`main` creates the `HeaderContext` once (`HeaderContext(basename, 0)`) and for
each page calls `update_page_num(i + 1)` and then the page processor with the
same context object. -/

def docAux (fm : List (String × FontSpec)) (rm : List (String × Role)) :
    HeaderContext → Nat → List (List TextLine) → List OutputRow
  | _, _, [] => []
  | ctx, n, pg :: rest =>
      let pr := parse_page_to_data_rows fm rm pg (ctx.update_page_num n)
      pr.1 ++ docAux fm rm pr.2 (n + 1) rest

def processDocument (fm : List (String × FontSpec)) (rm : List (String × Role))
    (filename : String) (pages : List (List TextLine)) : List OutputRow :=
  docAux fm rm ⟨filename, 0, []⟩ 1 pages

/-! ## PageStructureBuilder variant with orphan handling
(`parse_page_to_data_rows`, pdf_parser_generalised1.py) -/

structure PState1 where
  ctx : HeaderContext
  bodyBuf : List String
  headBuf : List String
  activeRole : Option Nat
  hasBody : Bool
  rows : List OutputRow
deriving DecidableEq

/-- Model of `commit_body` of the variant: additionally records that the current header
has received body content. -/
def commitBody1 (st : PState1) : PState1 :=
  if st.bodyBuf = [] then st
  else ⟨st.ctx, [], st.headBuf, st.activeRole, true,
        st.rows ++ [st.ctx.to_dict (joinSp st.bodyBuf)]⟩

def commitHeader1 (st : PState1) : PState1 :=
  match st.activeRole with
  | none => st
  | some r =>
      if st.headBuf = [] then st
      else ⟨st.ctx.update_header r (joinSp st.headBuf), st.bodyBuf, [],
            st.activeRole, st.hasBody, st.rows⟩

/-- Model of `commit_orphan_header`: a committed header that never received body content
is written out once as a row with empty body text. -/
def commitOrphan1 (st : PState1) : PState1 :=
  if st.activeRole.isSome ∧ st.hasBody = false
  then ⟨st.ctx, st.bodyBuf, st.headBuf, st.activeRole, true,
        st.rows ++ [st.ctx.to_dict ""]⟩
  else st

/-- Steps 1-3 of the new-header path of the variant: commit the previous
header, commit pending body, then emit the orphan row if that header never
received body content. -/
def hdrCommits1 (st : PState1) : PState1 :=
  commitOrphan1 (commitBody1 (if st.activeRole.isSome then commitHeader1 st else st))

/-- Step 4: start tracking the new header and reset the orphan flag. -/
def setHeaderStart1 (st : PState1) (r : Nat) (text : String) : PState1 :=
  ⟨st.ctx, st.bodyBuf, st.headBuf ++ [text], some r, false, st.rows⟩

def appendBody1 (st : PState1) (text : String) : PState1 :=
  ⟨st.ctx, st.bodyBuf ++ [text], st.headBuf, st.activeRole, st.hasBody, st.rows⟩

/-- Paragraph detection of the variant's body branch: `if i > 0 and
body_buffer: if gap > fs * 0.8: commit_body()` (exactly `5 * gap > 4 * fs`). -/
def bodyGapCommit1 (fm : List (String × FontSpec)) (prev : Option TextLine)
    (st1 : PState1) (line : TextLine) : PState1 :=
  if prev.isSome ∧ (st1.bodyBuf ≠ [] ∧
      5 * (line.top - prevBottom prev) > 4 * fsOr fm line.headFont 10)
  then commitBody1 st1 else st1

/-- One iteration of the line loop of pdf_parser_generalised1.py.
`gap = line.top - (lines[i-1].bottom if i > 0 else 0)`; the continuation test
`gap < fs * 1.5` is modelled exactly as `2 * gap < 3 * fs`; the font-size
default is 10.  The body branch commits a still-active header but does not
clear `active_header_role`. -/
def processLine1 (fm : List (String × FontSpec)) (rm : List (String × Role))
    (prev : Option TextLine) (st : PState1) (line : TextLine) : PState1 :=
  match roleOf rm line.headFont with
  | Role.header r =>
      if st.activeRole = some r ∧
         2 * (line.top - prevBottom prev) < 3 * fsOr fm line.headFont 10 then
        ⟨st.ctx, st.bodyBuf, st.headBuf ++ [line.get_text_content],
         st.activeRole, st.hasBody, st.rows⟩
      else
        setHeaderStart1 (hdrCommits1 st) r line.get_text_content
  | Role.body =>
      appendBody1
        (bodyGapCommit1 fm prev
          (if st.activeRole.isSome then commitHeader1 st else st) line)
        line.get_text_content

def runLines1 (fm : List (String × FontSpec)) (rm : List (String × Role)) :
    Option TextLine → PState1 → List TextLine → PState1
  | _, st, [] => st
  | prev, st, l :: ls => runLines1 fm rm (some l) (processLine1 fm rm prev st l) ls

def initState1 (ctx : HeaderContext) : PState1 := ⟨ctx, [], [], none, false, []⟩

/-- End-of-page cleanup of the variant: commit a still-active header, commit
pending body, re-check the orphan condition. -/
def endOfPage1 (st : PState1) : PState1 :=
  commitOrphan1 (commitBody1 (if st.activeRole.isSome then commitHeader1 st else st))

/-- Model of `parse_page_to_data_rows` (pdf_parser_generalised1.py). -/
def parse_page_to_data_rows1 (fm : List (String × FontSpec))
    (rm : List (String × Role)) (lines : List TextLine) (ctx : HeaderContext) :
    List OutputRow × HeaderContext :=
  let st := endOfPage1 (runLines1 fm rm none (initState1 ctx) lines)
  (st.rows, st.ctx)

/-! ## Concrete documents used by counterexamples and witnesses -/

/-- A single fragment of height 12 (a typical body-text height). -/
def exSoloFrag : TextFragment := ⟨"x", 0, 0, 5, 12, "f0"⟩

/-- Four fragments, heights `10, 10, 30, 30` in this order, tops `0,4,8,12`. -/
def exFragsA : List TextFragment :=
  [⟨"a", 0, 0, 1, 10, "f"⟩, ⟨"b", 4, 0, 1, 10, "f"⟩,
   ⟨"c", 8, 0, 1, 30, "f"⟩, ⟨"d", 12, 0, 1, 30, "f"⟩]

/-- The same tops with the heights supplied in the opposite order
(`30, 30, 10, 10`): same multiset of heights, same multiset of tops. -/
def exFragsB : List TextFragment :=
  [⟨"c", 0, 0, 1, 30, "f"⟩, ⟨"d", 4, 0, 1, 30, "f"⟩,
   ⟨"a", 8, 0, 1, 10, "f"⟩, ⟨"b", 12, 0, 1, 10, "f"⟩]

/-- A font table with two ids of size 12 and one of size 14. -/
def exFM : List (String × FontSpec) :=
  [("A", ⟨12, "fam", "col"⟩), ("B", ⟨12, "fam", "col"⟩), ("C", ⟨14, "fam", "col"⟩)]

/-- Text nodes: size 12 carries `3 + 3 = 6` characters, size 14 carries 5;
but the single font id `C` carries more characters than either of `A`, `B`. -/
def exNodes : List (String × String) :=
  [("A", "aaa"), ("B", "bbb"), ("C", "ccccc")]

/-- A font table and nodes with a genuine header: id `A` (size 12) dominates,
id `C` (size 20) is rarer and larger. -/
def exFM2 : List (String × FontSpec) :=
  [("A", ⟨12, "fam", "col"⟩), ("C", ⟨20, "fam", "col"⟩)]

def exNodes2 : List (String × String) :=
  [("A", "aaa"), ("C", "c")]

/-- A role map classifying font `H` as a level-1 header and `B` as body. -/
def exRM : List (String × Role) := [("H", Role.header 1), ("B", Role.body)]

def exLineH : TextLine := TextLine.mk1 ⟨"Title", 0, 0, 30, 10, "H"⟩

def exLineB : TextLine := TextLine.mk1 ⟨"hello body", 0, 0, 30, 10, "B"⟩

def exCtx : HeaderContext := ⟨"doc.xml", 1, []⟩

/-- Two level-1 header lines far apart vertically (gap 90 at font size
default 10, so the second is judged a new entry, not a continuation). -/
def exHdr1 : TextLine := TextLine.mk1 ⟨"One", 0, 0, 30, 10, "H"⟩

def exHdr2 : TextLine := TextLine.mk1 ⟨"Two", 100, 0, 30, 10, "H"⟩

/-- Modelled from the spec, for refutation of C1 only (the source never
aggregates weights by size): the character-count-weighted frequency of a font
size over the non-empty fragments whose font id is known. -/
def specSizeWeight (fm : List (String × FontSpec)) (nodes : List (String × String))
    (s : Int) : Nat :=
  nodes.foldl
    (fun acc kv =>
      match List.lookup kv.1 fm with
      | some sp => if sp.size = s ∧ 0 < stripLen kv.2 then acc + stripLen kv.2 else acc
      | none => acc)
    0

/-- Equality of fragments in everything except their `font_id` (the page
processors read the font only of `fragments[0]`). -/
def FragSim (f g : TextFragment) : Prop :=
  f.text = g.text ∧ f.top = g.top ∧ f.left = g.left
  ∧ f.width = g.width ∧ f.height = g.height

/-- Two lines with the same geometry, the same first-fragment font, and
fragments pairwise equal except for the fonts of the later fragments. -/
def LineSim (a b : TextLine) : Prop :=
  a.top = b.top ∧ a.bottom = b.bottom ∧ a.left = b.left
  ∧ a.headFont = b.headFont
  ∧ List.Forall₂ FragSim a.fragments b.fragments

/-- Relation on the `prev` argument of a step: the page builder reads only
`prev.bottom`. -/
def OptLineSim : Option TextLine → Option TextLine → Prop
  | none, none => True
  | some p, some q => p.bottom = q.bottom
  | _, _ => False

/-- Two-fragment lines identical except for the second fragment's font. -/
def exLineMulti1 : TextLine :=
  (TextLine.mk1 ⟨"Hello", 0, 0, 30, 10, "H"⟩).add ⟨"World", 0, 40, 30, 10, "H"⟩

def exLineMulti2 : TextLine :=
  (TextLine.mk1 ⟨"Hello", 0, 0, 30, 10, "H"⟩).add ⟨"World", 0, 40, 30, 10, "B"⟩

/-! # Theorems -/

/-! ## The headers dictionary -/

theorem lookup_cons_self (k : Nat) (v : String) (rest : Headers) :
    List.lookup k ((k, v) :: rest) = some v := by
  simp [List.lookup]

theorem lookup_cons_ne (k k0 : Nat) (v : String) (rest : Headers) (h : k ≠ k0) :
    List.lookup k ((k0, v) :: rest) = List.lookup k rest := by
  have hb : (k == k0) = false := by simp [h]
  simp [List.lookup, hb]

theorem lookup_setKey (hs : Headers) (L k : Nat) (t : String) :
    List.lookup k (setKey hs L t) = if k = L then some t else List.lookup k hs := by
  induction hs with
  | nil =>
      by_cases h : k = L
      · subst h; simp [setKey, lookup_cons_self]
      · simp [setKey, h, lookup_cons_ne k L t [] h]
  | cons kv rest ih =>
      obtain ⟨k0, v0⟩ := kv
      by_cases h0 : k0 = L
      · subst h0
        by_cases h : k = k0
        · subst h; simp [setKey, lookup_cons_self]
        · simp [setKey, h, lookup_cons_ne k k0 _ _ h]
      · by_cases h : k = k0
        · subst h
          simp [setKey, h0, lookup_cons_self]
        · simp [setKey, h0, lookup_cons_ne k k0 _ _ h, ih]

theorem lookup_delDeeper (hs : Headers) (L k : Nat) :
    List.lookup k (delDeeper L hs) = if L < k then none else List.lookup k hs := by
  induction hs with
  | nil => simp [delDeeper]
  | cons kv rest ih =>
      obtain ⟨k0, v0⟩ := kv
      by_cases hk : k0 > L
      · have hfil : delDeeper L ((k0, v0) :: rest) = delDeeper L rest := by
          simp [delDeeper, List.filter, hk]
        by_cases he : k = k0
        · subst he
          simp [hfil, ih, hk]
        · rw [hfil, ih, lookup_cons_ne k k0 _ _ he]
      · have hfil : delDeeper L ((k0, v0) :: rest) = (k0, v0) :: delDeeper L rest := by
          simp [delDeeper, List.filter, hk]
        by_cases he : k = k0
        · subst he
          have hnk : ¬ L < k := hk
          simp [hfil, lookup_cons_self, hnk]
        · rw [hfil, lookup_cons_ne k k0 _ _ he, ih, lookup_cons_ne k k0 _ _ he]

/-- Claim C2: for every context, level `L` and text `t`, `update_header L t`
sets the entry at level `L` to `t`, removes every entry at a level strictly
greater than `L`, and leaves every entry at a level strictly less than `L`
unchanged; and `update_page_num` (the only other context mutator the page
builder or orchestrator calls) does not touch the headers at all. -/
theorem claim_C2 (c : HeaderContext) (L : Nat) (t : String) (k : Nat) (n : Nat) :
    (List.lookup k (c.update_header L t).headers
       = if k = L then some t else if L < k then none else List.lookup k c.headers)
    ∧ (c.update_page_num n).headers = c.headers := by
  refine ⟨?_, rfl⟩
  unfold HeaderContext.update_header
  rw [lookup_delDeeper, lookup_setKey]
  by_cases hkL : k = L
  · subst hkL
    simp
  · by_cases hLk : L < k <;> simp [hkL, hLk]

/-! ## ToleranceEstimator -/

/-- Claim C6 (corrected): the estimator returns the fixed fallback 3 only for
the empty fragment list; a single-fragment list reaches the no-jitter branch
instead and returns `max(2, int(0.1 * height))`. -/
theorem claim_C6_amended :
    calculate_dynamic_y_tolerance [] = 3
    ∧ ∀ f : TextFragment,
        calculate_dynamic_y_tolerance [f] = max 2 (ftrunc ⟨f.height, 10⟩) := by
  constructor
  · rfl
  · intro f
    simp [calculate_dynamic_y_tolerance, pyMode, uniqFirst, dedupAcc, argmaxCount,
      sortByTop, sortByTopAux, insertByTop, consecGaps]

/-- Claim C6 counterexample: a single fragment of height 12 makes the
estimator return `max(2, int(1.2)) = 2`, not the claimed fallback 3. -/
theorem claim_C6_counterexample :
    calculate_dynamic_y_tolerance [exSoloFrag] = 2 ∧ (2 : Int) ≠ 3 := by
  exact ⟨by decide, by decide⟩

/-- Count bound for the running-maximum loop modelling `statistics.mode`. -/
theorem count_argmaxCount (l : List Int) (us : List Int) (best : Int) :
    l.count best ≤ l.count (argmaxCount l best us)
    ∧ ∀ x ∈ us, l.count x ≤ l.count (argmaxCount l best us) := by
  induction us generalizing best with
  | nil => simp [argmaxCount]
  | cons x xs ih =>
      obtain ⟨h1, h2⟩ := ih (if l.count x > l.count best then x else best)
      constructor
      · refine le_trans ?_ h1
        split <;> omega
      · intro y hy
        rcases List.mem_cons.mp hy with hyx | hYs
        · subst hyx
          refine le_trans ?_ h1
          split <;> omega
        · exact h2 y hYs

theorem mem_dedupAcc (xs acc : List Int) (y : Int) :
    y ∈ dedupAcc acc xs ↔ y ∈ acc ∨ y ∈ xs := by
  induction xs generalizing acc with
  | nil => simp [dedupAcc]
  | cons x rest ih =>
      by_cases hx : x ∈ acc
      · simp only [dedupAcc, if_pos hx, ih]
        constructor
        · rintro (h | h)
          · exact Or.inl h
          · exact Or.inr (List.mem_cons_of_mem _ h)
        · rintro (h | h)
          · exact Or.inl h
          · rcases List.mem_cons.mp h with rfl | h
            · exact Or.inl hx
            · exact Or.inr h
      · simp only [dedupAcc, if_neg hx, ih, List.mem_append, List.mem_singleton,
          List.mem_cons]
        tauto

theorem mem_uniqFirst (l : List Int) (y : Int) : y ∈ uniqFirst l ↔ y ∈ l := by
  simpa [uniqFirst] using mem_dedupAcc l [] y

/-- Claim C7 (corrected): the dominant height is always a most frequent value
of the height list, but ties are broken to the value whose first occurrence
comes earliest in the list (Python >= 3.8 `statistics.mode`), not to the
smaller value: on `[10, 10, 30, 30]` the mode is 10, on `[30, 30, 10, 10]`
it is 30. -/
theorem claim_C7_amended :
    (∀ l : List Int, ∀ y, l.count y ≤ l.count (pyMode l))
    ∧ pyMode [10, 10, 30, 30] = 10 ∧ pyMode [30, 30, 10, 10] = 30 := by
  refine ⟨?_, by decide, by decide⟩
  intro l y
  by_cases hyl : y ∈ l
  · have hy' : y ∈ uniqFirst l := (mem_uniqFirst l y).mpr hyl
    unfold pyMode
    cases h : uniqFirst l with
    | nil => rw [h] at hy'; cases hy'
    | cons u us =>
        rw [h] at hy'
        rcases List.mem_cons.mp hy' with rfl | hy''
        · exact (count_argmaxCount l us y).1
        · exact (count_argmaxCount l us u).2 y hy''
  · have : l.count y = 0 := List.count_eq_zero.mpr hyl
    omega

/-- Claim C7 counterexample: `exFragsA` and `exFragsB` have the same multiset
of heights (`{10, 10, 30, 30}`, a two-way tie in frequency) and the same tops,
yet the dominant height is the first-encountered tied value (30 for
`exFragsB`, not the smaller 10) and the two orders produce different
tolerances (3 vs 4) — the estimator is not a function of the height multiset. -/
theorem claim_C7_counterexample :
    (exFragsA.map TextFragment.height).Perm (exFragsB.map TextFragment.height)
    ∧ exFragsA.map TextFragment.top = exFragsB.map TextFragment.top
    ∧ (exFragsB.map TextFragment.height).count 10
        = (exFragsB.map TextFragment.height).count 30
    ∧ pyMode (exFragsB.map TextFragment.height) = 30
    ∧ calculate_dynamic_y_tolerance exFragsA = 3
    ∧ calculate_dynamic_y_tolerance exFragsB = 4 := by
  refine ⟨by decide, by decide, by decide, by decide, by decide, by decide⟩

/-! ## LineReconstructor -/

/-- Claim C8: in the sweep of `extract_text_lines`, a fragment whose `top`
differs from the current line's `top` by exactly the tolerance is appended to
the current line, and one differing by `tolerance + 1` starts a new line.
(`extract_text_lines` runs `sweepAux` with
`tol = calculate_dynamic_y_tolerance` of the page's fragments.) -/
theorem claim_C8 (tol : Int) (cur : TextLine) (f : TextFragment)
    (fs : List TextFragment) :
    (|f.top - cur.top| = tol →
       sweepAux tol cur (f :: fs) = sweepAux tol (cur.add f) fs)
    ∧ (|f.top - cur.top| = tol + 1 →
       sweepAux tol cur (f :: fs) = cur :: sweepAux tol (TextLine.mk1 f) fs) := by
  constructor
  · intro h
    have hle : |f.top - cur.top| ≤ tol := le_of_eq h
    simp [sweepAux, hle]
  · intro h
    have hgt : ¬ |f.top - cur.top| ≤ tol := by omega
    simp [sweepAux, hgt]

theorem claim_C8_witness :
    (|(TextFragment.top ⟨"b", 2, 0, 1, 1, "f"⟩) - (TextLine.mk1 ⟨"a", 0, 0, 1, 1, "f"⟩).top| = 2
      ∧ sweepAux 2 (TextLine.mk1 ⟨"a", 0, 0, 1, 1, "f"⟩) [⟨"b", 2, 0, 1, 1, "f"⟩]
          = sweepAux 2 ((TextLine.mk1 ⟨"a", 0, 0, 1, 1, "f"⟩).add ⟨"b", 2, 0, 1, 1, "f"⟩) [])
    ∧ (|(TextFragment.top ⟨"c", 3, 0, 1, 1, "f"⟩) - (TextLine.mk1 ⟨"a", 0, 0, 1, 1, "f"⟩).top| = 2 + 1
      ∧ sweepAux 2 (TextLine.mk1 ⟨"a", 0, 0, 1, 1, "f"⟩) [⟨"c", 3, 0, 1, 1, "f"⟩]
          = (TextLine.mk1 ⟨"a", 0, 0, 1, 1, "f"⟩)
              :: sweepAux 2 (TextLine.mk1 ⟨"c", 3, 0, 1, 1, "f"⟩) []) :=
  ⟨⟨by decide, (claim_C8 2 (TextLine.mk1 ⟨"a", 0, 0, 1, 1, "f"⟩) ⟨"b", 2, 0, 1, 1, "f"⟩ []).1 (by decide)⟩,
   ⟨by decide, (claim_C8 2 (TextLine.mk1 ⟨"a", 0, 0, 1, 1, "f"⟩) ⟨"c", 3, 0, 1, 1, "f"⟩ []).2 (by decide)⟩⟩

/-! ## Page boundary behaviour of the active header (generalised parser) -/

theorem joinSp_single (t : String) : joinSp [t] = t := rfl

/-- Claim C5 (corrected): a page consisting of a single header line does not
leave the header pending: the end-of-page cleanup commits it into the shared
context (and emits no row), so the next page starts with no active header
level — `parse_page_to_data_rows` always begins from the fresh state
`initState` whose `activeRole` is `none`. -/
theorem claim_C5_amended (fm : List (String × FontSpec)) (rm : List (String × Role))
    (ctx : HeaderContext) (l : TextLine) (L : Nat)
    (h : roleOf rm l.headFont = Role.header L) :
    parse_page_to_data_rows fm rm [l] ctx
      = ([], ctx.update_header L l.get_text_content) := by
  simp [parse_page_to_data_rows, runLines, initState, processLine, h,
    hdrCommits, setHeaderStart, endOfPage, commitHeader, commitBody,
    joinSp_single]

theorem claim_C5_witness :
    roleOf exRM exLineH.headFont = Role.header 1
    ∧ parse_page_to_data_rows [] exRM [exLineH] exCtx
        = ([], exCtx.update_header 1 exLineH.get_text_content) :=
  ⟨by decide, claim_C5_amended [] exRM exCtx exLineH 1 (by decide)⟩

/-- Claim C5 counterexample: the page `[exLineH]` ends while header level 1 is
still being accumulated, yet the returned context already contains the
committed text `"Title"` at level 1 and the page emitted no rows — the header
is committed at the page boundary, it does not carry into the next page
unresolved. -/
theorem claim_C5_counterexample :
    List.lookup 1 (parse_page_to_data_rows [] exRM [exLineH] exCtx).2.headers
        = some "Title"
    ∧ (parse_page_to_data_rows [] exRM [exLineH] exCtx).1 = [] := by
  exact ⟨by decide, by decide⟩

/-! ## Unknown font ids (generalised parser) -/

theorem roleOf_insert_absent (rm : List (String × Role)) (fid : String)
    (h : List.lookup fid rm = none) (g : String) :
    roleOf ((fid, Role.body) :: rm) g = roleOf rm g := by
  by_cases hg : g = fid
  · subst hg
    have hb : (g == g) = true := by simp
    simp [roleOf, List.lookup, hb, h]
  · have hb : (g == fid) = false := by simp [hg]
    simp [roleOf, List.lookup, hb]

theorem processLine_roleCongr (fm : List (String × FontSpec))
    (rm1 rm2 : List (String × Role)) (hr : ∀ g, roleOf rm1 g = roleOf rm2 g)
    (prev : Option TextLine) (st : PState) (line : TextLine) :
    processLine fm rm1 prev st line = processLine fm rm2 prev st line := by
  unfold processLine
  rw [hr line.headFont]

theorem runLines_roleCongr (fm : List (String × FontSpec))
    (rm1 rm2 : List (String × Role)) (hr : ∀ g, roleOf rm1 g = roleOf rm2 g)
    (lines : List TextLine) (prev : Option TextLine) (st : PState) :
    runLines fm rm1 prev st lines = runLines fm rm2 prev st lines := by
  induction lines generalizing prev st with
  | nil => rfl
  | cons l ls ih =>
      unfold runLines
      rw [processLine_roleCongr fm rm1 rm2 hr prev st l, ih]

/-- Claim C9: a font id absent from the role map is given role `Body`
(`role_map.get(fid, 'body')`), and the page builder behaves exactly as if the
map explicitly classified that id as `Body` — processing continues normally
for every page (the embedding is a total function; no error path exists). -/
theorem claim_C9 (rm : List (String × Role)) (fid : String)
    (h : List.lookup fid rm = none) :
    roleOf rm fid = Role.body
    ∧ ∀ (fm : List (String × FontSpec)) (lines : List TextLine) (ctx : HeaderContext),
        parse_page_to_data_rows fm ((fid, Role.body) :: rm) lines ctx
          = parse_page_to_data_rows fm rm lines ctx := by
  constructor
  · simp [roleOf, h]
  · intro fm lines ctx
    unfold parse_page_to_data_rows
    rw [runLines_roleCongr fm _ rm (roleOf_insert_absent rm fid h) lines none
      (initState ctx)]

theorem claim_C9_witness :
    List.lookup "U" exRM = none
    ∧ roleOf exRM "U" = Role.body
    ∧ parse_page_to_data_rows [] (("U", Role.body) :: exRM)
        [TextLine.mk1 ⟨"stray text", 0, 0, 30, 10, "U"⟩] exCtx
      = parse_page_to_data_rows [] exRM
        [TextLine.mk1 ⟨"stray text", 0, 0, 30, 10, "U"⟩] exCtx :=
  ⟨by decide, (claim_C9 exRM "U" (by decide)).1,
   (claim_C9 exRM "U" (by decide)).2 [] [TextLine.mk1 ⟨"stray text", 0, 0, 30, 10, "U"⟩] exCtx⟩

/-! ## Cross-page persistence of the context (generalised parser) -/

theorem commitBody_spec (st : PState) :
    (commitBody st).ctx = st.ctx
    ∧ (commitBody st).activeRole = st.activeRole
    ∧ (commitBody st).headBuf = st.headBuf
    ∧ ∀ r ∈ (commitBody st).rows,
        r ∈ st.rows ∨ r = st.ctx.to_dict (joinSp st.bodyBuf) := by
  unfold commitBody
  split
  · exact ⟨rfl, rfl, rfl, fun r hr => Or.inl hr⟩
  · refine ⟨rfl, rfl, rfl, fun r hr => ?_⟩
    rcases List.mem_append.mp hr with h | h
    · exact Or.inl h
    · exact Or.inr (List.mem_singleton.mp h)

theorem commitHeader_spec (st : PState) :
    (commitHeader st).ctx.page_num = st.ctx.page_num
    ∧ (commitHeader st).ctx.filename = st.ctx.filename
    ∧ (commitHeader st).rows = st.rows
    ∧ (commitHeader st).activeRole = st.activeRole
    ∧ (commitHeader st).bodyBuf = st.bodyBuf := by
  unfold commitHeader
  cases hA : st.activeRole with
  | none => exact ⟨rfl, rfl, rfl, hA, rfl⟩
  | some r =>
      dsimp only
      by_cases hB : st.headBuf = []
      · rw [if_pos hB]
        exact ⟨rfl, rfl, rfl, hA, rfl⟩
      · rw [if_neg hB]
        exact ⟨rfl, rfl, rfl, rfl, rfl⟩

theorem condCommitHeader_spec (st : PState) :
    (if st.activeRole.isSome = true then commitHeader st else st).ctx.page_num
        = st.ctx.page_num
    ∧ (if st.activeRole.isSome = true then commitHeader st else st).ctx.filename
        = st.ctx.filename
    ∧ (if st.activeRole.isSome = true then commitHeader st else st).rows
        = st.rows := by
  split
  · exact ⟨(commitHeader_spec st).1, (commitHeader_spec st).2.1,
      (commitHeader_spec st).2.2.1⟩
  · exact ⟨rfl, rfl, rfl⟩

/-- Steps 1-2 of the new-header path never change page number or filename,
and every row they add snapshots the current page number and filename. -/
theorem hdrCommits_spec (st : PState) :
    (hdrCommits st).ctx.page_num = st.ctx.page_num
    ∧ (hdrCommits st).ctx.filename = st.ctx.filename
    ∧ ∀ r ∈ (hdrCommits st).rows,
        r ∈ st.rows ∨ (r.pageNo = st.ctx.page_num ∧ r.filename = st.ctx.filename) := by
  unfold hdrCommits
  obtain ⟨h1p, h1f, h1r⟩ := condCommitHeader_spec st
  obtain ⟨h2c, _, _, h2r⟩ := commitBody_spec
    (if st.activeRole.isSome = true then commitHeader st else st)
  refine ⟨by rw [h2c, h1p], by rw [h2c, h1f], ?_⟩
  intro r hr
  rcases h2r r hr with h | h
  · rw [h1r] at h
    exact Or.inl h
  · subst h
    exact Or.inr ⟨by simp [HeaderContext.to_dict, h1p], by simp [HeaderContext.to_dict, h1f]⟩

theorem condClear_spec (st : PState) :
    (if st.activeRole.isSome = true then clearActive (commitHeader st) else st).ctx.page_num
        = st.ctx.page_num
    ∧ (if st.activeRole.isSome = true then clearActive (commitHeader st) else st).ctx.filename
        = st.ctx.filename
    ∧ (if st.activeRole.isSome = true then clearActive (commitHeader st) else st).rows
        = st.rows := by
  split
  · exact ⟨(commitHeader_spec st).1, (commitHeader_spec st).2.1,
      (commitHeader_spec st).2.2.1⟩
  · exact ⟨rfl, rfl, rfl⟩

theorem bodyGapCommit_spec (fm : List (String × FontSpec)) (prev : Option TextLine)
    (st1 : PState) (line : TextLine) :
    (bodyGapCommit fm prev st1 line).ctx = st1.ctx
    ∧ (bodyGapCommit fm prev st1 line).activeRole = st1.activeRole
    ∧ ∀ r ∈ (bodyGapCommit fm prev st1 line).rows,
        r ∈ st1.rows ∨ r = st1.ctx.to_dict (joinSp st1.bodyBuf) := by
  unfold bodyGapCommit
  cases prev with
  | none => exact ⟨rfl, rfl, fun r hr => Or.inl hr⟩
  | some p =>
      dsimp only
      by_cases hG : st1.bodyBuf ≠ [] ∧
          5 * (line.top - p.bottom) > 3 * fsOr fm line.headFont 12
      · rw [if_pos hG]
        exact ⟨(commitBody_spec st1).1, (commitBody_spec st1).2.1,
          (commitBody_spec st1).2.2.2⟩
      · rw [if_neg hG]
        exact ⟨rfl, rfl, fun r hr => Or.inl hr⟩

/-- Every row a parser step emits carries the page number and filename of the
current context, which the step never changes. -/
theorem processLine_pageInv (fm : List (String × FontSpec))
    (rm : List (String × Role)) (prev : Option TextLine) (st : PState)
    (line : TextLine) :
    (processLine fm rm prev st line).ctx.page_num = st.ctx.page_num
    ∧ (processLine fm rm prev st line).ctx.filename = st.ctx.filename
    ∧ ∀ r ∈ (processLine fm rm prev st line).rows,
        r ∈ st.rows ∨ (r.pageNo = st.ctx.page_num ∧ r.filename = st.ctx.filename) := by
  unfold processLine
  cases hR : roleOf rm line.headFont with
  | header hl =>
      dsimp only
      split
      · exact ⟨rfl, rfl, fun r hr => Or.inl hr⟩
      · obtain ⟨hp, hf, hr⟩ := hdrCommits_spec st
        exact ⟨hp, hf, hr⟩
  | body =>
      dsimp only
      obtain ⟨h1p, h1f, h1r⟩ := condClear_spec st
      obtain ⟨h2c, _, h2r⟩ := bodyGapCommit_spec fm prev
        (if st.activeRole.isSome = true then clearActive (commitHeader st) else st) line
      refine ⟨by rw [show (appendBody (bodyGapCommit fm prev _ line)
          line.get_text_content).ctx = (bodyGapCommit fm prev _ line).ctx from rfl,
          h2c, h1p], by rw [show (appendBody (bodyGapCommit fm prev _ line)
          line.get_text_content).ctx = (bodyGapCommit fm prev _ line).ctx from rfl,
          h2c, h1f], ?_⟩
      intro r hr
      have hr' : r ∈ (bodyGapCommit fm prev
          (if st.activeRole.isSome = true then clearActive (commitHeader st) else st)
          line).rows := hr
      rcases h2r r hr' with h | h
      · rw [h1r] at h
        exact Or.inl h
      · subst h
        exact Or.inr ⟨by simp [HeaderContext.to_dict, h1p],
          by simp [HeaderContext.to_dict, h1f]⟩

theorem runLines_pageInv (fm : List (String × FontSpec))
    (rm : List (String × Role)) (lines : List TextLine) :
    ∀ (prev : Option TextLine) (st : PState),
    (runLines fm rm prev st lines).ctx.page_num = st.ctx.page_num
    ∧ (runLines fm rm prev st lines).ctx.filename = st.ctx.filename
    ∧ ∀ r ∈ (runLines fm rm prev st lines).rows,
        r ∈ st.rows ∨ (r.pageNo = st.ctx.page_num ∧ r.filename = st.ctx.filename) := by
  induction lines with
  | nil => exact fun prev st => ⟨rfl, rfl, fun r hr => Or.inl hr⟩
  | cons l ls ih =>
      intro prev st
      obtain ⟨hp, hf, hr⟩ := processLine_pageInv fm rm prev st l
      obtain ⟨hp', hf', hr'⟩ := ih (some l) (processLine fm rm prev st l)
      have hstep : runLines fm rm prev st (l :: ls)
          = runLines fm rm (some l) (processLine fm rm prev st l) ls := rfl
      refine ⟨by rw [hstep, hp', hp], by rw [hstep, hf', hf], ?_⟩
      intro r hrr
      rw [hstep] at hrr
      rcases hr' r hrr with h | h
      · exact hr r h
      · exact Or.inr ⟨by rw [h.1, hp], by rw [h.2, hf]⟩

/-- Model of `parse_page_to_data_rows` stamps every emitted row with the context's page
number and filename and never changes either. -/
theorem parse_pageInv (fm : List (String × FontSpec)) (rm : List (String × Role))
    (lines : List TextLine) (ctx : HeaderContext) :
    (parse_page_to_data_rows fm rm lines ctx).2.page_num = ctx.page_num
    ∧ ∀ r ∈ (parse_page_to_data_rows fm rm lines ctx).1,
        r.pageNo = ctx.page_num ∧ r.filename = ctx.filename := by
  unfold parse_page_to_data_rows endOfPage
  dsimp only
  obtain ⟨hp, hf, hr⟩ := runLines_pageInv fm rm lines none (initState ctx)
  obtain ⟨h1p, h1f, h1r⟩ := condCommitHeader_spec
    (runLines fm rm none (initState ctx) lines)
  obtain ⟨h2c, _, _, h2r⟩ := commitBody_spec
    (if (runLines fm rm none (initState ctx) lines).activeRole.isSome = true
     then commitHeader (runLines fm rm none (initState ctx) lines)
     else runLines fm rm none (initState ctx) lines)
  have hpi : (initState ctx).ctx = ctx := rfl
  constructor
  · rw [h2c, h1p, hp, hpi]
  · intro r hrr
    rcases h2r r hrr with h | h
    · rw [h1r] at h
      rcases hr r h with h2 | h2
      · simp [initState] at h2
      · rw [hpi] at h2
        exact h2
    · subst h
      refine ⟨?_, ?_⟩
      · simp [HeaderContext.to_dict, h1p, hp, hpi]
      · simp [HeaderContext.to_dict, h1f, hf, hpi]

/-- A body-role line processed with no active header never touches the
context, keeps the header inactive, and any row it emits snapshots the
current headers. -/
theorem processLine_bodyOnly (fm : List (String × FontSpec))
    (rm : List (String × Role)) (prev : Option TextLine) (st : PState)
    (line : TextLine) (hrole : roleOf rm line.headFont = Role.body)
    (hact : st.activeRole = none) :
    (processLine fm rm prev st line).ctx = st.ctx
    ∧ (processLine fm rm prev st line).activeRole = none
    ∧ ∀ r ∈ (processLine fm rm prev st line).rows,
        r ∈ st.rows ∨ r.headers = st.ctx.headers := by
  unfold processLine
  rw [hrole]
  dsimp only
  rw [hact]
  simp only [Option.isSome_none, Bool.false_eq_true, if_false]
  obtain ⟨h2c, h2a, h2r⟩ := bodyGapCommit_spec fm prev st line
  refine ⟨h2c, by rw [show (appendBody (bodyGapCommit fm prev st line)
      line.get_text_content).activeRole
      = (bodyGapCommit fm prev st line).activeRole from rfl, h2a, hact], ?_⟩
  intro r hr
  have hr' : r ∈ (bodyGapCommit fm prev st line).rows := hr
  rcases h2r r hr' with h | h
  · exact Or.inl h
  · subst h
    exact Or.inr rfl

theorem runLines_bodyOnly (fm : List (String × FontSpec))
    (rm : List (String × Role)) (lines : List TextLine)
    (hb : ∀ l ∈ lines, roleOf rm l.headFont = Role.body) :
    ∀ (prev : Option TextLine) (st : PState), st.activeRole = none →
    (runLines fm rm prev st lines).ctx = st.ctx
    ∧ (runLines fm rm prev st lines).activeRole = none
    ∧ ∀ r ∈ (runLines fm rm prev st lines).rows,
        r ∈ st.rows ∨ r.headers = st.ctx.headers := by
  induction lines with
  | nil => exact fun prev st hact => ⟨rfl, hact, fun r hr => Or.inl hr⟩
  | cons l ls ih =>
      intro prev st hact
      obtain ⟨hc, ha, hr⟩ := processLine_bodyOnly fm rm prev st l
        (hb l (List.mem_cons_self l ls)) hact
      obtain ⟨hc', ha', hr'⟩ := ih (fun x hx => hb x (List.mem_cons_of_mem l hx))
        (some l) (processLine fm rm prev st l) ha
      have hstep : runLines fm rm prev st (l :: ls)
          = runLines fm rm (some l) (processLine fm rm prev st l) ls := rfl
      refine ⟨by rw [hstep, hc', hc], by rw [hstep, ha'], ?_⟩
      intro r hrr
      rw [hstep] at hrr
      rcases hr' r hrr with h | h
      · exact hr r h
      · rw [hc] at h
        exact Or.inr h

/-- On a body-only page the parser returns the context unchanged and every
emitted row snapshots exactly that context's headers. -/
theorem parse_bodyOnly (fm : List (String × FontSpec)) (rm : List (String × Role))
    (lines : List TextLine) (ctx : HeaderContext)
    (hb : ∀ l ∈ lines, roleOf rm l.headFont = Role.body) :
    (parse_page_to_data_rows fm rm lines ctx).2 = ctx
    ∧ ∀ r ∈ (parse_page_to_data_rows fm rm lines ctx).1,
        r.headers = ctx.headers := by
  unfold parse_page_to_data_rows endOfPage
  dsimp only
  obtain ⟨hc, ha, hr⟩ := runLines_bodyOnly fm rm lines hb none (initState ctx) rfl
  have hpi : (initState ctx).ctx = ctx := rfl
  rw [hpi] at hc hr
  rw [ha]
  simp only [Option.isSome_none, Bool.false_eq_true, if_false]
  obtain ⟨h2c, _, _, h2r⟩ := commitBody_spec (runLines fm rm none (initState ctx) lines)
  constructor
  · rw [h2c, hc]
  · intro r hrr
    rcases h2r r hrr with h | h
    · rcases hr r h with h2 | h2
      · simp [initState] at h2
      · exact h2
    · subst h
      simp [HeaderContext.to_dict, hc]

/-- Claim C3: the orchestrator threads one `HeaderContext` through all pages
(it is never recreated); if processing page 1 leaves header level 1 set to
`txt` and page 2 consists only of body-role lines, then every row the two-page
document emits for page 2 carries header level 1 = `txt`. -/
theorem claim_C3 (fm : List (String × FontSpec)) (rm : List (String × Role))
    (fn : String) (pA pB : List TextLine) (txt : String)
    (h1 : List.lookup 1 ((parse_page_to_data_rows fm rm pA
            ((HeaderContext.mk fn 0 []).update_page_num 1)).2.headers) = some txt)
    (h2 : ∀ l ∈ pB, roleOf rm l.headFont = Role.body) :
    ∀ r ∈ processDocument fm rm fn [pA, pB], r.pageNo = 2 →
      List.lookup 1 r.headers = some txt := by
  intro r hr hpage
  simp only [processDocument, docAux, List.append_nil] at hr
  norm_num at hr
  set ctx1 := (HeaderContext.mk fn 0 []).update_page_num 1 with hctx1
  set pr1 := parse_page_to_data_rows fm rm pA ctx1 with hpr1
  set ctx2 := pr1.2.update_page_num 2 with hctx2
  set pr2 := parse_page_to_data_rows fm rm pB ctx2 with hpr2
  rcases hr with hA | hB
  · obtain ⟨_, hrows⟩ := parse_pageInv fm rm pA ctx1
    have := (hrows r hA).1
    rw [hctx1] at this
    simp [HeaderContext.update_page_num] at this
    rw [hpage] at this
    cases this
  · obtain ⟨_, hrows⟩ := parse_bodyOnly fm rm pB ctx2 h2
    have hhead := hrows r hB
    rw [hhead, hctx2]
    simpa [HeaderContext.update_page_num] using h1

theorem claim_C3_witness :
    (List.lookup 1 ((parse_page_to_data_rows [] exRM [exLineH]
        ((HeaderContext.mk "doc.xml" 0 []).update_page_num 1)).2.headers) = some "Title")
    ∧ (∀ l ∈ [exLineB], roleOf exRM l.headFont = Role.body)
    ∧ ∀ r ∈ processDocument [] exRM "doc.xml" [[exLineH], [exLineB]], r.pageNo = 2 →
        List.lookup 1 r.headers = some "Title" :=
  ⟨by decide, by decide,
   claim_C3 [] exRM "doc.xml" [exLineH] [exLineB] "Title" (by decide) (by decide)⟩

/-! ## Orphan headers (variant parser, pdf_parser_generalised1.py) -/

/-- Claim C4: on a page consisting of a header line immediately followed by a
second header line judged a new entry of equal-or-higher rank (`L2 <= L` and
not a same-level visual continuation), with no body line in between, the
variant parser emits exactly one empty-body row for the first header,
snapshotting the first header's context (its text at level `L` over `ctx`),
followed by exactly one empty-body row for the second header at page end — and
no second empty-body row for the first header. -/
theorem claim_C4 (fm : List (String × FontSpec)) (rm : List (String × Role))
    (ctx : HeaderContext) (l1 l2 : TextLine) (L L2 : Nat)
    (h1 : roleOf rm l1.headFont = Role.header L)
    (h2 : roleOf rm l2.headFont = Role.header L2)
    (hrank : L2 ≤ L)
    (hnew : ¬ (L2 = L ∧ 2 * (l2.top - l1.bottom) < 3 * fsOr fm l2.headFont 10)) :
    parse_page_to_data_rows1 fm rm [l1, l2] ctx
      = ([(ctx.update_header L l1.get_text_content).to_dict "",
          ((ctx.update_header L l1.get_text_content).update_header L2
              l2.get_text_content).to_dict ""],
         (ctx.update_header L l1.get_text_content).update_header L2
           l2.get_text_content) := by
  have hcond : ¬ (L = L2 ∧
      2 * (l2.top - l1.bottom) < 3 * fsOr fm l2.headFont 10) := by
    rintro ⟨hs, hg⟩
    exact hnew ⟨hs.symm, hg⟩
  simp [parse_page_to_data_rows1, runLines1, initState1, processLine1, h1, h2,
    hdrCommits1, setHeaderStart1, commitBody1, commitHeader1, commitOrphan1,
    endOfPage1, prevBottom, joinSp_single, hcond]

theorem claim_C4_witness :
    roleOf exRM exHdr1.headFont = Role.header 1
    ∧ roleOf exRM exHdr2.headFont = Role.header 1
    ∧ (1 : Nat) ≤ 1
    ∧ ¬ ((1 : Nat) = 1 ∧ 2 * (exHdr2.top - exHdr1.bottom) < 3 * fsOr [] exHdr2.headFont 10)
    ∧ parse_page_to_data_rows1 [] exRM [exHdr1, exHdr2] exCtx
        = ([(exCtx.update_header 1 exHdr1.get_text_content).to_dict "",
            ((exCtx.update_header 1 exHdr1.get_text_content).update_header 1
                exHdr2.get_text_content).to_dict ""],
           (exCtx.update_header 1 exHdr1.get_text_content).update_header 1
             exHdr2.get_text_content) :=
  ⟨by decide, by decide, by decide, by decide,
   claim_C4 [] exRM exCtx exHdr1 exHdr2 1 1 (by decide) (by decide) (by decide)
     (by decide)⟩

/-! ## The role of a line depends only on its first fragment's font -/

theorem FragSim.right_eq {f g : TextFragment} (h : FragSim f g) :
    f.right = g.right := by
  unfold TextFragment.right
  rw [h.2.2.1, h.2.2.2.1]

theorem insertByLeft_sim {f g : TextFragment} {as bs : List TextFragment}
    (hfg : FragSim f g) (h : List.Forall₂ FragSim as bs) :
    List.Forall₂ FragSim (insertByLeft f as) (insertByLeft g bs) := by
  induction h with
  | nil => exact List.Forall₂.cons hfg List.Forall₂.nil
  | cons hxy hrest ih =>
      unfold insertByLeft
      rename_i x y xs ys
      by_cases hc : x.left ≤ f.left
      · have hc' : y.left ≤ g.left := by
          rw [← hxy.2.2.1, ← hfg.2.2.1]
          exact hc
        rw [if_pos hc, if_pos hc']
        exact List.Forall₂.cons hxy ih
      · have hc' : ¬ y.left ≤ g.left := by
          rw [← hxy.2.2.1, ← hfg.2.2.1]
          exact hc
        rw [if_neg hc, if_neg hc']
        exact List.Forall₂.cons hfg (List.Forall₂.cons hxy hrest)

theorem sortByLeftAux_sim {acc1 acc2 l1 l2 : List TextFragment}
    (hacc : List.Forall₂ FragSim acc1 acc2) (h : List.Forall₂ FragSim l1 l2) :
    List.Forall₂ FragSim (sortByLeftAux acc1 l1) (sortByLeftAux acc2 l2) := by
  induction h generalizing acc1 acc2 with
  | nil => exact hacc
  | cons hxy hrest ih => exact ih (insertByLeft_sim hxy hacc)

theorem joinRun_sim {p q : TextFragment} {cs ds : List TextFragment}
    (hpq : FragSim p q) (h : List.Forall₂ FragSim cs ds) :
    joinRun p cs = joinRun q ds := by
  induction h generalizing p q with
  | nil => rfl
  | cons hxy hrest ih =>
      rename_i x y xs ys
      unfold joinRun
      rw [hxy.2.2.1, hpq.right_eq, hxy.1, ih hxy]

theorem get_text_content_sim (a b : TextLine)
    (h : List.Forall₂ FragSim a.fragments b.fragments) :
    a.get_text_content = b.get_text_content := by
  have hsim : List.Forall₂ FragSim (sortByLeft a.fragments) (sortByLeft b.fragments) :=
    sortByLeftAux_sim List.Forall₂.nil h
  unfold TextLine.get_text_content
  cases hA : sortByLeft a.fragments with
  | nil =>
      cases hB : sortByLeft b.fragments with
      | nil => rfl
      | cons g gs => rw [hA, hB] at hsim; cases hsim
  | cons f fs =>
      cases hB : sortByLeft b.fragments with
      | nil => rw [hA, hB] at hsim; cases hsim
      | cons g gs =>
          rw [hA, hB] at hsim
          cases hsim with
          | cons hfg hrest =>
              dsimp only
              rw [hfg.1, joinRun_sim hfg hrest]

theorem bodyGapCommit_congr (fm : List (String × FontSpec))
    (p1 p2 : Option TextLine) (st1 : PState) (l1 l2 : TextLine)
    (hp : OptLineSim p1 p2) (ht : l1.top = l2.top)
    (hf : l1.headFont = l2.headFont) :
    bodyGapCommit fm p1 st1 l1 = bodyGapCommit fm p2 st1 l2 := by
  unfold bodyGapCommit
  cases p1 with
  | none =>
      cases p2 with
      | none => rfl
      | some q => exact False.elim hp
  | some p =>
      cases p2 with
      | none => exact False.elim hp
      | some q =>
          dsimp only
          rw [ht, hf, show p.bottom = q.bottom from hp]

theorem processLine_sim (fm : List (String × FontSpec)) (rm : List (String × Role))
    (prev1 prev2 : Option TextLine) (st : PState) (l1 l2 : TextLine)
    (hp : OptLineSim prev1 prev2) (h : LineSim l1 l2) :
    processLine fm rm prev1 st l1 = processLine fm rm prev2 st l2 := by
  unfold processLine
  rw [h.2.2.2.1, get_text_content_sim l1 l2 h.2.2.2.2]
  cases roleOf rm l2.headFont with
  | header r => rfl
  | body =>
      dsimp only
      rw [bodyGapCommit_congr fm prev1 prev2 _ l1 l2 hp h.1 h.2.2.2.1]

theorem runLines_sim (fm : List (String × FontSpec)) (rm : List (String × Role))
    {ls1 ls2 : List TextLine} (h : List.Forall₂ LineSim ls1 ls2) :
    ∀ (prev1 prev2 : Option TextLine), OptLineSim prev1 prev2 → ∀ st : PState,
    runLines fm rm prev1 st ls1 = runLines fm rm prev2 st ls2 := by
  induction h with
  | nil => intro _ _ _ _; rfl
  | cons hxy hrest ih =>
      rename_i x y xs ys
      intro prev1 prev2 hp st
      have hstep1 : runLines fm rm prev1 st (x :: xs)
          = runLines fm rm (some x) (processLine fm rm prev1 st x) xs := rfl
      have hstep2 : runLines fm rm prev2 st (y :: ys)
          = runLines fm rm (some y) (processLine fm rm prev2 st y) ys := rfl
      rw [hstep1, hstep2, processLine_sim fm rm prev1 prev2 st x y hp hxy]
      exact ih (some x) (some y) hxy.2.1 _

/-- Claim C10: the generalised page builder's output is entirely independent
of the fonts of non-first fragments: for any two line streams pairwise equal
in geometry, text and first-fragment font (`LineSim`, which leaves the
`font_id` of every fragment after the first unconstrained), the parser
produces identical rows and an identical context — in particular each line's
Header/Body classification (`role_map.get(line.fragments[0].font_id, 'body')`)
is untouched by the other fragments' fonts. -/
theorem claim_C10 (fm : List (String × FontSpec)) (rm : List (String × Role))
    (ctx : HeaderContext) (ls1 ls2 : List TextLine)
    (h : List.Forall₂ LineSim ls1 ls2) :
    parse_page_to_data_rows fm rm ls1 ctx = parse_page_to_data_rows fm rm ls2 ctx := by
  unfold parse_page_to_data_rows
  rw [runLines_sim fm rm h none none trivial (initState ctx)]

theorem claim_C10_witness :
    List.Forall₂ LineSim [exLineMulti1] [exLineMulti2]
    ∧ exLineMulti1.fragments.map TextFragment.font_id ≠
        exLineMulti2.fragments.map TextFragment.font_id
    ∧ parse_page_to_data_rows [] exRM [exLineMulti1] exCtx
        = parse_page_to_data_rows [] exRM [exLineMulti2] exCtx := by
  have hsim : List.Forall₂ LineSim [exLineMulti1] [exLineMulti2] := by
    refine List.Forall₂.cons ?_ List.Forall₂.nil
    refine ⟨rfl, rfl, rfl, rfl, ?_⟩
    exact List.Forall₂.cons ⟨rfl, rfl, rfl, rfl, rfl⟩
      (List.Forall₂.cons ⟨rfl, rfl, rfl, rfl, rfl⟩ List.Forall₂.nil)
  exact ⟨hsim, by decide, claim_C10 [] exRM exCtx [exLineMulti1] [exLineMulti2] hsim⟩

/-! ## The document-wide font-role classifier -/

theorem lookup_map_roles (l : List (String × Nat)) (f : String → Role)
    (k : String) (c : Nat) (h : List.lookup k l = some c) :
    List.lookup k (l.map (fun kv => (kv.1, f kv.1))) = some (f k) := by
  induction l with
  | nil => simp [List.lookup] at h
  | cons kv rest ih =>
      obtain ⟨a, b⟩ := kv
      by_cases hka : k = a
      · subst hka
        simp [List.lookup]
      · have hb : (k == a) = false := by simp [hka]
        simp only [List.map, List.lookup, hb] at h ⊢
        exact ih h

theorem lookup_mem_fst (l : List (String × Nat)) (k : String) (c : Nat)
    (h : List.lookup k l = some c) : k ∈ l.map Prod.fst := by
  induction l with
  | nil => simp [List.lookup] at h
  | cons kv rest ih =>
      obtain ⟨a, b⟩ := kv
      by_cases hka : k = a
      · subst hka
        simp
      · have hb : (k == a) = false := by simp [hka]
        simp only [List.lookup, hb] at h
        simp [ih h]

theorem mem_insertDesc (x y : Int) (l : List Int) :
    y ∈ insertDesc x l ↔ y = x ∨ y ∈ l := by
  induction l with
  | nil => simp [insertDesc]
  | cons a rest ih =>
      unfold insertDesc
      by_cases hc : x ≥ a
      · rw [if_pos hc]
        simp [List.mem_cons]
      · rw [if_neg hc]
        simp [List.mem_cons, ih]
        tauto

theorem mem_sortDesc (y : Int) (l : List Int) : y ∈ sortDesc l ↔ y ∈ l := by
  induction l with
  | nil => simp [sortDesc]
  | cons a rest ih =>
      unfold sortDesc
      rw [mem_insertDesc]
      simp [ih]

theorem pairwise_insertDesc (x : Int) (l : List Int)
    (h : List.Pairwise (· ≥ ·) l) :
    List.Pairwise (· ≥ ·) (insertDesc x l) := by
  induction l with
  | nil => simp [insertDesc]
  | cons a rest ih =>
      rcases List.pairwise_cons.mp h with ⟨ha, hrest⟩
      unfold insertDesc
      by_cases hc : x ≥ a
      · rw [if_pos hc]
        refine List.pairwise_cons.mpr ⟨?_, h⟩
        intro b hb
        rcases List.mem_cons.mp hb with rfl | hb
        · exact hc
        · exact le_trans (ha b hb) hc
      · rw [if_neg hc]
        refine List.pairwise_cons.mpr ⟨?_, ih hrest⟩
        intro b hb
        rcases (mem_insertDesc x b rest).mp hb with rfl | hb
        · exact le_of_lt (lt_of_not_ge hc)
        · exact ha b hb

theorem pairwise_sortDesc (l : List Int) :
    List.Pairwise (· ≥ ·) (sortDesc l) := by
  induction l with
  | nil => simp [sortDesc]
  | cons a rest ih => exact pairwise_insertDesc a _ ih

theorem insertDesc_perm (x : Int) (l : List Int) :
    (insertDesc x l).Perm (x :: l) := by
  induction l with
  | nil => exact List.Perm.refl _
  | cons a rest ih =>
      unfold insertDesc
      by_cases hc : x ≥ a
      · rw [if_pos hc]
      · rw [if_neg hc]
        exact List.Perm.trans (List.Perm.cons a ih) (List.Perm.swap x a rest)

theorem sortDesc_perm (l : List Int) : (sortDesc l).Perm l := by
  induction l with
  | nil => exact List.Perm.refl _
  | cons a rest ih =>
      exact List.Perm.trans (insertDesc_perm a (sortDesc rest)) (List.Perm.cons a ih)

theorem nodup_dedupAcc (xs : List Int) : ∀ acc : List Int, acc.Nodup →
    (dedupAcc acc xs).Nodup := by
  induction xs with
  | nil => exact fun acc h => h
  | cons x rest ih =>
      intro acc h
      unfold dedupAcc
      by_cases hx : x ∈ acc
      · rw [if_pos hx]
        exact ih acc h
      · rw [if_neg hx]
        refine ih _ ?_
        simp [List.nodup_append, h, hx]

theorem nodup_uniqFirst (l : List Int) : (uniqFirst l).Nodup :=
  nodup_dedupAcc l [] List.nodup_nil

theorem cands_sorted (fm : List (String × FontSpec)) (nodes : List (String × String)) :
    List.Pairwise (· > ·) (candsOf fm nodes) := by
  unfold candsOf candidateSizes
  have h1 := pairwise_sortDesc
    (uniqFirst (((fontCounts fm nodes).map (fun kv => fontSizeOf fm kv.1)).filter
      (fun s => bodySizeOf fm nodes < s)))
  have h2 : (sortDesc (uniqFirst (((fontCounts fm nodes).map
      (fun kv => fontSizeOf fm kv.1)).filter
      (fun s => bodySizeOf fm nodes < s)))).Nodup :=
    ((sortDesc_perm _).nodup_iff).mpr (nodup_uniqFirst _)
  have h3 := List.Pairwise.and h1 h2
  exact h3.imp (fun hab => lt_of_le_of_ne hab.1 (fun hba => hab.2 hba.symm))

theorem mem_candsOf (fm : List (String × FontSpec)) (nodes : List (String × String))
    (s : Int) :
    s ∈ candsOf fm nodes ↔
      (s ∈ (fontCounts fm nodes).map (fun kv => fontSizeOf fm kv.1)
       ∧ bodySizeOf fm nodes < s) := by
  unfold candsOf candidateSizes
  rw [mem_sortDesc, mem_uniqFirst, List.mem_filter]
  simp

theorem idxOfSize_eq_none (s : Int) (l : List Int) (h : s ∉ l) :
    idxOfSize s l = none := by
  induction l with
  | nil => rfl
  | cons a rest ih =>
      unfold idxOfSize
      have hne : ¬ a = s := fun he => h (he ▸ List.mem_cons_self a rest)
      rw [if_neg hne, ih (fun hm => h (List.mem_cons_of_mem a hm))]
      rfl

/-- In a strictly descending list, the index of an element equals the number
of (strictly larger) elements before it. -/
theorem idxOfSize_sorted (s : Int) (l : List Int)
    (hpw : List.Pairwise (· > ·) l) (hmem : s ∈ l) :
    idxOfSize s l = some ((l.filter (fun t => s < t)).length) := by
  induction l with
  | nil => cases hmem
  | cons a rest ih =>
      rcases List.pairwise_cons.mp hpw with ⟨ha, hrest⟩
      unfold idxOfSize
      by_cases he : a = s
      · subst he
        rw [if_pos rfl]
        have hfil : (a :: rest).filter (fun t => decide (a < t)) = [] := by
          rw [List.filter_eq_nil_iff]
          intro b hb
          rcases List.mem_cons.mp hb with rfl | hb
          · simp
          · simp [not_lt.mpr (le_of_lt (ha b hb))]
        rw [hfil]
        rfl
      · rw [if_neg he]
        have hs : s ∈ rest := by
          rcases List.mem_cons.mp hmem with h1 | h1
          · exact absurd h1.symm he
          · exact h1
        rw [ih hrest hs]
        have hlt : s < a := ha s hs
        have hfil : (a :: rest).filter (fun t => decide (s < t))
            = a :: rest.filter (fun t => decide (s < t)) := by
          simp [List.filter, hlt]
        rw [hfil]
        simp

/-- Claim C1 (corrected): the classifier accumulates character counts per
font id (not per size); the body font id is the id with the largest count
(first encountered on ties) and the body size is that id's size.  For every
counted font id, the produced role map assigns `Body` when the id's size is at
most the body size, and `Header(level)` when it is strictly greater, where
`level` is the 1-based position of the size in the strictly descending list of
distinct counted candidate sizes (equivalently `1 +` the number of candidate
sizes above it). -/
theorem claim_C1_amended (fm : List (String × FontSpec))
    (nodes : List (String × String)) (fid : String) (c : Nat)
    (hc : List.lookup fid (fontCounts fm nodes) = some c) :
    (fontSizeOf fm fid ≤ bodySizeOf fm nodes →
        List.lookup fid (generate_global_role_map fm nodes) = some Role.body)
    ∧ (bodySizeOf fm nodes < fontSizeOf fm fid →
        List.lookup fid (generate_global_role_map fm nodes)
          = some (Role.header
              (((candsOf fm nodes).filter
                  (fun t => fontSizeOf fm fid < t)).length + 1))) := by
  have hmap : List.lookup fid (generate_global_role_map fm nodes)
      = some (assignRole fm (candsOf fm nodes) fid) :=
    lookup_map_roles (fontCounts fm nodes) (assignRole fm (candsOf fm nodes)) fid c hc
  constructor
  · intro hle
    rw [hmap]
    unfold assignRole
    have hnm : fontSizeOf fm fid ∉ candsOf fm nodes := by
      intro hm
      exact absurd ((mem_candsOf fm nodes _).mp hm).2 (not_lt.mpr hle)
    rw [idxOfSize_eq_none _ _ hnm]
  · intro hgt
    rw [hmap]
    unfold assignRole
    have hmem : fontSizeOf fm fid ∈ candsOf fm nodes := by
      refine (mem_candsOf fm nodes _).mpr ⟨?_, hgt⟩
      have hk := lookup_mem_fst (fontCounts fm nodes) fid c hc
      rcases List.mem_map.mp hk with ⟨kv, hkv, hfst⟩
      exact List.mem_map.mpr ⟨kv, hkv, by rw [hfst]⟩
    rw [idxOfSize_sorted _ _ (cands_sorted fm nodes) hmem]

/-- Claim C1 counterexample: in `exFM`/`exNodes` the character-count-weighted
frequency aggregated per SIZE is maximal (strictly) at size 12, and font id
`C` has size 14 > 12, so the claim demands `Header` for `C`; the code
aggregates per font id, picks `C` itself as the body font (15 characters vs 3
for each of `A`, `B`), and classifies `C` as `Body`. -/
theorem claim_C1_counterexample :
    specSizeWeight exFM exNodes 14 < specSizeWeight exFM exNodes 12
    ∧ (∀ s ∈ (fontCounts exFM exNodes).map (fun kv => fontSizeOf exFM kv.1),
        s ≠ 12 → specSizeWeight exFM exNodes s < specSizeWeight exFM exNodes 12)
    ∧ fontSizeOf exFM "C" = 14
    ∧ List.lookup "C" (generate_global_role_map exFM exNodes) = some Role.body := by
  refine ⟨by decide, by decide, by decide, by decide⟩

theorem claim_C1_witness :
    (List.lookup "A" (fontCounts exFM2 exNodes2) = some 3
     ∧ fontSizeOf exFM2 "A" ≤ bodySizeOf exFM2 exNodes2
     ∧ List.lookup "A" (generate_global_role_map exFM2 exNodes2) = some Role.body)
    ∧ (List.lookup "C" (fontCounts exFM2 exNodes2) = some 1
     ∧ bodySizeOf exFM2 exNodes2 < fontSizeOf exFM2 "C"
     ∧ List.lookup "C" (generate_global_role_map exFM2 exNodes2)
         = some (Role.header
             (((candsOf exFM2 exNodes2).filter
                 (fun t => fontSizeOf exFM2 "C" < t)).length + 1))) :=
  ⟨⟨by decide, by decide,
    (claim_C1_amended exFM2 exNodes2 "A" 3 (by decide)).1 (by decide)⟩,
   ⟨by decide, by decide,
    (claim_C1_amended exFM2 exNodes2 "C" 1 (by decide)).2 (by decide)⟩⟩

end PdfStruct
